import Mathlib

/-!
Verification development for the Dev-Janitor repository.

Two subsystems are covered:

1. The enhanced package-discovery core (tiered executable search, path
   cache, status classification, manager handlers, discovery facade).
   The repository ships only its design document
   (`.kiro/specs/enhanced-package-discovery/design.md`); the executable
   implementation is not part of the source tree, so these definitions
   are modelled from the natural-language specification, as marked on
   each definition.

2. The AI cleanup scanner (`src/main/aiCleanupScanner.ts`), whose
   TypeScript source is present and is embedded directly.

External effects (filesystem, process execution, Node `Buffer`
primitives) are modelled as explicit oracle structures; all
definitions are computable.
-/

/-! ## Package discovery: data model -/

/-- Modelled from the spec: the `PackageManagerType` union (design.md
"Data Models"; spec §3): five legacy ids plus the five new managers. -/
inductive ManagerId where
  | npm | pip | composer | cargo | gem
  | brew | conda | pipx | poetry | pyenv
deriving DecidableEq, Repr

/-- Modelled from the spec: the `DiscoveryMethod` union (spec §3
SearchResult, design.md "Data Models"): which tier resolved the
executable. -/
inductive DiscoveryMethod where
  | direct_command
  | path_scan
  | common_path
  | custom_path
deriving DecidableEq, Repr

/-- Modelled from the spec: the `ManagerAvailabilityStatus` union
(spec §3 PackageManagerStatus, design.md "Data Models"). -/
inductive AvailabilityStatus where
  | available
  | path_missing
  | not_installed
deriving DecidableEq, Repr

/-- Modelled from the spec: `SearchResult` (spec §3): resolved path,
discovery method, and whether the executable is on PATH. -/
structure SearchResult where
  path : String
  method : DiscoveryMethod
  inPath : Bool
deriving DecidableEq, Repr

/-- Modelled from the spec: `PackageManagerStatus` (spec §3, design.md
"Data Models"): the classified availability of one manager. -/
structure PackageManagerStatus where
  manager : ManagerId
  status : AvailabilityStatus
  discoveryMethod : Option DiscoveryMethod
  foundPath : Option String
  inPath : Bool
  message : Option String
deriving DecidableEq, Repr

/-! ## Package discovery: tiered path search

The implementation of `TieredPathSearch.findExecutable` is absent from
the source tree (design.md declares only its signature), so the search
is modelled from spec §4.2.  The external world a search interacts
with — the ambient PATH, the filesystem, and the version probes run
against candidate paths — is abstracted as an oracle, in the same way
the spec treats the Command Execution Capability as an injected
capability (spec §1, §6). -/

/-- Modelled from the spec: the environment a tiered search observes.
`directWorks` is the outcome of the Tier 1 unqualified version probe;
`pathDirs` is the process PATH split on the platform separator;
`dirHasVerified d` holds when directory `d` contains an executable
file of the searched name whose version probe succeeds (Tier 2);
`probePath p` holds when candidate absolute path `p` (placeholders
already expanded) exists and its version probe succeeds (Tiers 3/4). -/
structure SearchEnv where
  directWorks : Bool
  pathDirs : List String
  dirHasVerified : String → Bool
  probePath : String → Bool

/-- Modelled from the spec: Tier 1 "Direct command check" (spec §4.2):
run the executable unqualified via the ambient PATH; success yields
`method = direct_command`, `inPath = true`.  The second component
counts external probes performed (one). -/
def checkDirectCommand (env : SearchEnv) (executable : String) :
    Option SearchResult × Nat :=
  (if env.directWorks then some ⟨executable, .direct_command, true⟩ else none, 1)

/-- Modelled from the spec: a sequential scan over candidate strings
with early termination, counting one probe per candidate examined;
used by Tiers 2, 3 and 4. -/
def scanCandidates (found : String → Bool) (mk : String → SearchResult) :
    List String → Option SearchResult × Nat
  | [] => (none, 0)
  | d :: rest =>
    if found d then (some (mk d), 1)
    else
      let r := scanCandidates found mk rest
      (r.1, r.2 + 1)

/-- Modelled from the spec: Tier 2 "PATH environment scan" (spec §4.2):
enumerate each PATH directory, checking for a verified executable;
success yields `method = path_scan`, `inPath = true`. -/
def scanPathEnvironment (env : SearchEnv) (executable : String) :
    Option SearchResult × Nat :=
  scanCandidates env.dirHasVerified
    (fun d => ⟨d ++ "/" ++ executable, .path_scan, true⟩) env.pathDirs

/-- Modelled from the spec: Tier 3 "Common paths" (spec §4.2): probe
each handler-declared common path in order; success yields
`method = common_path`, `inPath = false`. -/
def searchCommonPaths (env : SearchEnv) (paths : List String) :
    Option SearchResult × Nat :=
  scanCandidates env.probePath (fun p => ⟨p, .common_path, false⟩) paths

/-- Modelled from the spec: Tier 4 "Custom paths" (spec §4.2): probe
each configured custom path in order; success yields
`method = custom_path`, `inPath = false`. -/
def searchCustomPaths (env : SearchEnv) (paths : List String) :
    Option SearchResult × Nat :=
  scanCandidates env.probePath (fun p => ⟨p, .custom_path, false⟩) paths

/-- Modelled from the spec: `TieredPathSearch.findExecutable`
(spec §4.2).  The tiers run sequentially with early termination.  Per
the property stated inside §4.2 ("custom paths are searched *before*
default common paths whenever both are configured — i.e., Tier 4
candidates are logically prepended ahead of Tier 3"), reiterated in
spec §8 and §9 and in design.md Property 8 / Requirement 11.2, the
custom-path candidates are examined before the common-path candidates.
Returns the result together with the number of external probes
performed. -/
def findExecutable (env : SearchEnv) (executable : String)
    (commonPaths customPaths : List String) : Option SearchResult × Nat :=
  let t1 := checkDirectCommand env executable
  match t1.1 with
  | some r => (some r, t1.2)
  | none =>
    let t2 := scanPathEnvironment env executable
    match t2.1 with
    | some r => (some r, t1.2 + t2.2)
    | none =>
      let t4 := searchCustomPaths env customPaths
      match t4.1 with
      | some r => (some r, t1.2 + t2.2 + t4.2)
      | none =>
        let t3 := searchCommonPaths env commonPaths
        (t3.1, t1.2 + t2.2 + t4.2 + t3.2)

/-! ## Package discovery: status classification -/

/-- Modelled from the spec: status classification (spec §4.3): a pure,
total function of a `SearchResult` or its absence.  Absent yields
`not_installed`; `direct_command`/`path_scan` yield `available` with
`inPath = true`; `common_path`/`custom_path` yield `path_missing` with
`inPath = false` and a remediation message naming the found path. -/
def classifyResult (m : ManagerId) : Option SearchResult → PackageManagerStatus
  | none => ⟨m, .not_installed, none, none, false, none⟩
  | some r =>
    match r.method with
    | .direct_command =>
      ⟨m, .available, some r.method, some r.path, true, none⟩
    | .path_scan =>
      ⟨m, .available, some r.method, some r.path, true, none⟩
    | .common_path =>
      ⟨m, .path_missing, some r.method, some r.path, false,
        some (r.path ++ " found but not on PATH; add it to your shell PATH")⟩
    | .custom_path =>
      ⟨m, .path_missing, some r.method, some r.path, false,
        some (r.path ++ " found but not on PATH; add it to your shell PATH")⟩

/-! ## Package discovery: path cache -/

/-- Modelled from the spec: one `PathCache` entry (spec §3, §4.1).
§4.2 requires that a cache hit "return the cached SearchResult-
equivalent without executing probes", so an entry retains the full
search outcome; `none` is the explicit negative entry recording "not
found". -/
abbrev CacheEntry := Option SearchResult

/-- Modelled from the spec: the session-scoped `PathCache` (spec §4.1):
a pure in-memory key-value store keyed by manager id. -/
structure PathCache where
  entries : List (ManagerId × CacheEntry)
deriving Repr

/-- Modelled from the spec: `PathCache` lookup (spec §4.1 `getPath` /
`getAvailability`): `none` when no entry has been recorded for the
manager. -/
def PathCache.getEntry (c : PathCache) (m : ManagerId) : Option CacheEntry :=
  (c.entries.find? (fun e => e.1 = m)).map (·.2)

/-- Modelled from the spec: `PathCache` population (spec §4.1
`setPath` / `setAvailability`): records the outcome (positive or
negative) for a manager, replacing any previous entry. -/
def PathCache.setEntry (c : PathCache) (m : ManagerId) (v : CacheEntry) :
    PathCache :=
  ⟨(m, v) :: c.entries.filter (fun e => e.1 ≠ m)⟩

/-- Modelled from the spec: `PathCache.clear` (spec §4.1). -/
def PathCache.clearAll (_c : PathCache) : PathCache := ⟨[]⟩

/-- Modelled from the spec: the cache-consulting search (spec §4.2):
before running any tier, consult the Path Cache; on a hit return the
cached result with zero probes; on a miss run the tiered search and
populate the cache with the outcome (a negative entry when every tier
failed).  Returns (result, updated cache, probes performed). -/
def findExecutableCached (env : SearchEnv) (c : PathCache) (m : ManagerId)
    (executable : String) (commonPaths customPaths : List String) :
    Option SearchResult × PathCache × Nat :=
  match c.getEntry m with
  | some v => (v, c, 0)
  | none =>
    let r := findExecutable env executable commonPaths customPaths
    (r.1, c.setEntry m r.1, r.2)

/-- Modelled from the spec: the cache evolution of one lookup, used to
express repeated lookups (spec §8 cache idempotence). -/
def lookupStep (env : SearchEnv) (m : ManagerId) (executable : String)
    (commonPaths customPaths : List String) (c : PathCache) : PathCache :=
  (findExecutableCached env c m executable commonPaths customPaths).2.1

/-! ## Package discovery: availability check and facade -/

/-- Modelled from the spec: `PackageManagerHandler.checkAvailability`
(spec §4.4): delegates to the tiered search with the handler's
executable, common paths and configured custom paths, and reports
whether the binary exists at all. -/
def checkAvailability (env : SearchEnv) (executable : String)
    (commonPaths customPaths : List String) : Bool :=
  (findExecutable env executable commonPaths customPaths).1.isSome

/-- Modelled from the spec: the outcome of one manager's availability
probe as observed by the facade (spec §4.5): either the probe settled
with a search outcome, or it failed (timeout, crash, unexpected
exception). -/
inductive ProbeOutcome where
  | success (r : Option SearchResult)
  | failure
deriving DecidableEq, Repr

/-- Modelled from the spec: how the facade converts one probe's
outcome into a status (spec §4.5 `discoverAvailableManagers`): a
failure "is caught and converted to `not_installed` for that manager
only". -/
def probeStatus (m : ManagerId) : ProbeOutcome → PackageManagerStatus
  | .success r => classifyResult m r
  | .failure => classifyResult m none

/-- Modelled from the spec: `discoverAvailableManagers` (spec §4.5):
one independent probe per registered, non-disabled manager; the
aggregate returns the full status array once all probes settle.  Each
manager's status depends only on its own probe's outcome. -/
def discoverAvailableManagers (probe : ManagerId → ProbeOutcome)
    (mgrs : List ManagerId) : List PackageManagerStatus :=
  mgrs.map (fun m => probeStatus m (probe m))

/-- Modelled from the spec: fault injection into exactly one manager's
probe (spec §8: "injecting a failure (timeout or crash) into exactly
one manager's probe"). -/
def injectFailure (probe : ManagerId → ProbeOutcome) (m0 : ManagerId) :
    ManagerId → ProbeOutcome :=
  fun m => if m = m0 then .failure else probe m

/-! ## Package records and parsing

Parsing is modelled from spec §4.4: per-manager parse targets, with
the mandatory resilience contract (structured parse first where
applicable, line-oriented fallback, malformed entries silently
skipped, never an error).  The JSON-based handlers need a JSON reader;
the host language's `JSON.parse` is modelled by a small total
recursive-descent reader below (fuel-bounded; running out of fuel or
any syntax error is a structured-parse failure, which triggers the
text fallback exactly as a `JSON.parse` exception would). -/

/-- Modelled from the spec: the canonical `PackageRecord` (spec §3). -/
structure PackageRecord where
  name : String
  version : String
  manager : ManagerId
  location : String
  channel : Option String
  environment : Option String
deriving DecidableEq, Repr

/-- A JSON value, as produced by the modelled JSON reader. -/
inductive JVal where
  | jnull
  | jbool (b : Bool)
  | jnum (raw : String)
  | jstr (s : String)
  | jarr (elems : List JVal)
  | jobj (fields : List (String × JVal))

/-- Whether a character is JSON insignificant whitespace. -/
def jsonWsChar (c : Char) : Bool :=
  c == ' ' || c == '\t' || c == '\n' || c == '\r'

/-- Skip JSON whitespace. -/
def skipWs (cs : List Char) : List Char := cs.dropWhile jsonWsChar

/-- Hex digit value, for string escapes: the digit's position in the
hex alphabet (upper- and lowercase letters both accepted). -/
def hexVal (c : Char) : Option Nat :=
  "0123456789abcdef".toList.indexOf? c.toLower

/-- Characters that may appear in a JSON number literal. -/
def isNumChar (c : Char) : Bool :=
  c.isDigit || c == '-' || c == '+' || c == '.' || c == 'e' || c == 'E'

mutual

/-- Read one JSON value; returns the value and remaining input. -/
def parseJVal (fuel : Nat) (cs : List Char) : Option (JVal × List Char) :=
  match fuel with
  | 0 => none
  | fuel + 1 =>
    match skipWs cs with
    | 'n' :: 'u' :: 'l' :: 'l' :: rest => some (.jnull, rest)
    | 't' :: 'r' :: 'u' :: 'e' :: rest => some (.jbool true, rest)
    | 'f' :: 'a' :: 'l' :: 's' :: 'e' :: rest => some (.jbool false, rest)
    | '"' :: rest => (parseJStr fuel rest []).map (fun p => (.jstr p.1, p.2))
    | '[' :: rest =>
      match skipWs rest with
      | ']' :: rest2 => some (.jarr [], rest2)
      | rest2 => (parseJArrElems fuel rest2 []).map (fun p => (.jarr p.1, p.2))
    | '{' :: rest =>
      match skipWs rest with
      | '}' :: rest2 => some (.jobj [], rest2)
      | rest2 => (parseJObjFields fuel rest2 []).map (fun p => (.jobj p.1, p.2))
    | cs2 =>
      let digits := cs2.takeWhile isNumChar
      if digits.isEmpty then none
      else some (.jnum (String.mk digits), cs2.drop digits.length)

/-- Read a JSON string body (the opening quote already consumed). -/
def parseJStr (fuel : Nat) (cs : List Char) (acc : List Char) :
    Option (String × List Char) :=
  match fuel with
  | 0 => none
  | fuel + 1 =>
    match cs with
    | [] => none
    | '"' :: rest => some (String.mk acc.reverse, rest)
    | '\\' :: e :: rest =>
      match e with
      | '"' => parseJStr fuel rest ('"' :: acc)
      | '\\' => parseJStr fuel rest ('\\' :: acc)
      | '/' => parseJStr fuel rest ('/' :: acc)
      | 'n' => parseJStr fuel rest ('\n' :: acc)
      | 't' => parseJStr fuel rest ('\t' :: acc)
      | 'r' => parseJStr fuel rest ('\r' :: acc)
      | 'b' => parseJStr fuel rest (Char.ofNat 8 :: acc)
      | 'f' => parseJStr fuel rest (Char.ofNat 12 :: acc)
      | 'u' =>
        match rest with
        | h1 :: h2 :: h3 :: h4 :: rest2 =>
          match hexVal h1, hexVal h2, hexVal h3, hexVal h4 with
          | some a, some b, some c, some d =>
            parseJStr fuel rest2
              (Char.ofNat (((a * 16 + b) * 16 + c) * 16 + d) :: acc)
          | _, _, _, _ => none
        | _ => none
      | _ => none
    | c :: rest => parseJStr fuel rest (c :: acc)

/-- Read the elements of a non-empty JSON array (opening bracket and
leading whitespace already consumed). -/
def parseJArrElems (fuel : Nat) (cs : List Char) (acc : List JVal) :
    Option (List JVal × List Char) :=
  match fuel with
  | 0 => none
  | fuel + 1 =>
    match parseJVal fuel cs with
    | none => none
    | some (v, rest) =>
      match skipWs rest with
      | ',' :: rest2 => parseJArrElems fuel rest2 (v :: acc)
      | ']' :: rest2 => some ((v :: acc).reverse, rest2)
      | _ => none

/-- Read the fields of a non-empty JSON object (opening brace and
leading whitespace already consumed). -/
def parseJObjFields (fuel : Nat) (cs : List Char)
    (acc : List (String × JVal)) : Option (List (String × JVal) × List Char) :=
  match fuel with
  | 0 => none
  | fuel + 1 =>
    match skipWs cs with
    | '"' :: rest =>
      match parseJStr fuel rest [] with
      | none => none
      | some (k, rest2) =>
        match skipWs rest2 with
        | ':' :: rest3 =>
          match parseJVal fuel rest3 with
          | none => none
          | some (v, rest4) =>
            match skipWs rest4 with
            | ',' :: rest5 => parseJObjFields fuel rest5 ((k, v) :: acc)
            | '}' :: rest5 => some (((k, v) :: acc).reverse, rest5)
            | _ => none
        | _ => none
    | _ => none

end

/-- The modelled `JSON.parse`: reads one value and requires the rest
of the input to be whitespace; `none` models a parse exception. -/
def parseJson (s : String) : Option JVal :=
  match parseJVal (2 * s.length + 4) s.toList with
  | some (v, rest) => if (skipWs rest).isEmpty then some v else none
  | none => none

/-- Field lookup in a parsed JSON object. -/
def jObjGet (fields : List (String × JVal)) (k : String) : Option JVal :=
  (fields.find? (fun f => f.1 == k)).map (fun f => f.2)

/-- Split a character list at every separator recognised by `p`,
producing the (possibly empty) pieces between separators. -/
def splitPred (p : Char → Bool) : List Char → List Char → List String
  | [], acc => [String.mk acc.reverse]
  | c :: rest, acc =>
    if p c then String.mk acc.reverse :: splitPred p rest []
    else splitPred p rest (c :: acc)

/-- Remove leading and trailing whitespace. -/
def trimStr (s : String) : String :=
  String.mk (((s.toList.dropWhile Char.isWhitespace).reverse.dropWhile
    Char.isWhitespace).reverse)

/-- Split a line into its non-empty whitespace-delimited tokens. -/
def splitWsTokens (line : String) : List String :=
  (splitPred Char.isWhitespace line.toList []).filter (fun t => !t.isEmpty)

/-- Join strings with a separator. -/
def joinWith (sep : String) : List String → String
  | [] => ""
  | [x] => x
  | x :: xs => x ++ sep ++ joinWith sep xs

/-- Split raw command output into lines. -/
def linesOf (s : String) : List String :=
  splitPred (fun c => c == '\n') s.toList []

/-- Modelled from the spec: the Homebrew parse target (spec §4.4):
whitespace-delimited `name version...` lines; first token is the
name, the remaining tokens form the version string; lines without a
version token are malformed and skipped.  `loc` is `formula` or
`cask` according to which list the raw text came from. -/
def parseBrewLines (loc : String) (raw : String) : List PackageRecord :=
  (linesOf raw).filterMap (fun line =>
    match splitWsTokens line with
    | nm :: v :: rest => some ⟨nm, joinWith " " (v :: rest), .brew, loc, none, none⟩
    | _ => none)

/-- Modelled from the spec: `BrewHandler.parseOutput` over one raw
list (the formula list; the cask list is parsed identically with
location `cask`). -/
def parseBrewOutput (raw : String) : List PackageRecord :=
  parseBrewLines "formula" raw

/-- Modelled from the spec: one entry of Conda's structured output
(spec §4.4: JSON array of `{name, version, channel}`); entries whose
name or version is missing, non-string or empty are malformed and
skipped (spec §3 requires non-empty name/version; spec §4.4 requires
skipping malformed entries). -/
def condaEntry : JVal → Option PackageRecord
  | .jobj fields =>
    match jObjGet fields "name", jObjGet fields "version" with
    | some (.jstr nm), some (.jstr ver) =>
      if nm.isEmpty || ver.isEmpty then none
      else
        let ch := match jObjGet fields "channel" with
          | some (.jstr c) => if c.isEmpty then none else some c
          | _ => none
        some ⟨nm, ver, .conda, "conda-env", ch, none⟩
    | _, _ => none
  | _ => none

/-- Modelled from the spec: Conda's line-oriented text fallback
(spec §4.4 parsing resilience): comment lines are skipped; a
well-formed line is `name version [channel]`. -/
def parseCondaText (raw : String) : List PackageRecord :=
  (linesOf raw).filterMap (fun line =>
    if (trimStr line).startsWith "#" then none
    else
      match splitWsTokens line with
      | nm :: ver :: rest => some ⟨nm, ver, .conda, "conda-env", rest.head?, none⟩
      | _ => none)

/-- Modelled from the spec: `CondaHandler.parseOutput` (spec §4.4):
structured JSON parse first; on failure (unparsable, or not an
array), fall back to line-oriented text parsing. -/
def parseCondaOutput (raw : String) : List PackageRecord :=
  match parseJson raw with
  | some (.jarr elems) => elems.filterMap condaEntry
  | some _ => parseCondaText raw
  | none => parseCondaText raw

/-- Modelled from the spec: one venv of Pipx's structured output
(spec §4.4: JSON object keyed by venv name, each with
`metadata.main_package.{package, package_version}`); malformed or
empty-field venvs are skipped. -/
def pipxVenvEntry (entry : String × JVal) : Option PackageRecord :=
  match entry.2 with
  | .jobj fields =>
    match jObjGet fields "metadata" with
    | some (.jobj md) =>
      match jObjGet md "main_package" with
      | some (.jobj mp) =>
        match jObjGet mp "package", jObjGet mp "package_version" with
        | some (.jstr nm), some (.jstr ver) =>
          if nm.isEmpty || ver.isEmpty then none
          else some ⟨nm, ver, .pipx, "pipx-venv", none, none⟩
        | _, _ => none
      | _ => none
    | _ => none
  | _ => none

/-- Modelled from the spec: `PipxHandler.parseOutput` (spec §4.4).
The spec gives no line-oriented shape for pipx output, so nothing is
recoverable from non-JSON input: the fallback is the empty sequence
(spec §4.4: best-effort, possibly empty, never an error). -/
def parsePipxOutput (raw : String) : List PackageRecord :=
  match parseJson raw with
  | some (.jobj fields) =>
    match jObjGet fields "venvs" with
    | some (.jobj venvs) => venvs.filterMap pipxVenvEntry
    | _ => []
  | _ => []

/-- Modelled from the spec: `PoetryHandler.parseOutput` (spec §4.4):
directory entry names, one per line, are treated as package
identifiers.  The spec leaves Poetry's version undetermined, so it is
modelled as a constant non-empty placeholder, as required by the
PackageRecord invariant of spec §3 (non-empty version). -/
def parsePoetryOutput (raw : String) : List PackageRecord :=
  (linesOf raw).filterMap (fun line =>
    let nm := trimStr line
    if nm.isEmpty then none
    else some ⟨nm, "installed", .poetry, "generic", none, none⟩)

/-- Modelled from the spec: `PyenvHandler.parseOutput` (spec §4.4):
one version string per line; each non-blank line becomes a record
with name `python` and the line as version. -/
def parsePyenvOutput (raw : String) : List PackageRecord :=
  (linesOf raw).filterMap (fun line =>
    let ver := trimStr line
    if ver.isEmpty then none
    else some ⟨"python", ver, .pyenv, "pyenv-version", none, none⟩)

/-- Modelled from the spec: each handler's `parseOutput`, dispatched
by handler id (spec §4.4).  The spec specifies parse contracts only
for the five new handlers; the legacy handlers' parsers are not part
of the specified core and are modelled as producing nothing. -/
def parseOutputOf : ManagerId → String → List PackageRecord
  | .brew => parseBrewOutput
  | .conda => parseCondaOutput
  | .pipx => parsePipxOutput
  | .poetry => parsePoetryOutput
  | .pyenv => parsePyenvOutput
  | _ => fun _ => []

/-! ## AI cleanup scanner (`src/main/aiCleanupScanner.ts`)

This module's TypeScript source is present in the repository and is
embedded directly.  Node primitives (`fs`, `Buffer`, `os.homedir`)
are external capabilities and are modelled as oracles/parameters;
wall-clock timing (`Date.now`) is not modelled, so `scanTime` is 0. -/

/-- The `AIJunkFile.type` field: `'file' | 'directory'`. -/
inductive ItemType where
  | file
  | directory
deriving DecidableEq, Repr

/-- The `riskLevel` field: `'low' | 'medium'`. -/
inductive RiskLevel where
  | low
  | medium
deriving DecidableEq, Repr

/-- The `AIJunkFile` record of `aiCleanupScanner.ts` (lines 18-29).
`lastModified` is a millisecond timestamp standing for the JS `Date`. -/
structure AIJunkFile where
  id : String
  name : String
  path : String
  size : Nat
  sizeFormatted : String
  type : ItemType
  source : String
  description : String
  riskLevel : RiskLevel
  lastModified : Option Int
deriving DecidableEq, Repr

/-- The `AICleanupResult` record (lines 31-37). -/
structure AICleanupResult where
  id : String
  success : Bool
  freedSpace : Nat
  freedSpaceFormatted : String
  error : Option String
deriving DecidableEq, Repr

/-- The `AICleanupScanResult` record (lines 39-45). -/
structure AICleanupScanResult where
  files : List AIJunkFile
  totalSize : Nat
  totalSizeFormatted : String
  scanTime : Nat
  scannedPaths : List String
deriving DecidableEq, Repr

/-- Renders `parseFloat((n / d).toFixed(2))` for natural `n` and
positive `d`: the quotient rounded to two decimals (half rounded up,
standing for `toFixed` on exact values), with trailing fractional
zeros dropped as `parseFloat` does. -/
def toFixed2Trim (n d : Nat) : String :=
  let q := (n * 200 + d) / (2 * d)
  let ip := q / 100
  let fp := q % 100
  if fp = 0 then toString ip
  else if fp % 10 = 0 then toString ip ++ "." ++ toString (fp / 10)
  else if fp < 10 then toString ip ++ ".0" ++ toString fp
  else toString ip ++ "." ++ toString fp

/-- Embeds `formatBytes` (lines 50-56).  `Math.floor(Math.log(bytes) /
Math.log(1024))` on a positive integer is its base-1024 logarithm,
`Nat.log 1024`.  As in the source, the unit index is not clamped:
beyond TB the JS code renders the unit as `undefined`. -/
def formatBytes (bytes : Nat) : String :=
  if bytes = 0 then "0 B"
  else
    let i := Nat.log 1024 bytes
    let unit := (["B", "KB", "MB", "GB", "TB"].getD i "undefined")
    toFixed2Trim bytes (1024 ^ i) ++ " " ++ unit

/-- Outcome of a Node `fs` call that may throw: `ok` with a value, or
`err` with the thrown error's message. -/
inductive FSResult (α : Type) where
  | ok (value : α)
  | err (message : String)
deriving DecidableEq, Repr

/-- Oracle for the filesystem operations `deleteItem` performs, plus
the Node `Buffer` base64+utf8 decoding of the item id.  `decodeId`
models `Buffer.from(itemId, 'base64').toString('utf-8')`, which is
total in Node (lenient decoding, never throws).  `sizeOf` models
`getSize` (lines 61-79), which catches all errors internally and is
therefore total, returning 0 on failure.  `statIsDir` models
`fs.stat(...).isDirectory()`; `remove` models `fs.rm` (recursive,
when the target is a directory) or `fs.unlink` (otherwise).  The
claims proved below concern the record each call returns, so the
filesystem mutation performed by `remove` needs no state threading. -/
structure DelFS where
  decodeId : String → String
  sizeOf : String → Nat
  statIsDir : String → FSResult Bool
  remove : String → Bool → FSResult Unit

/-- Embeds `AICleanupScanner.deleteItem` (lines 319-349): decode the id,
measure the size before deletion, stat the target, delete it with
`fs.rm`/`fs.unlink`; any thrown error is caught and converted into a
failure record with `freedSpace` 0, `'0 B'`, and the error message. -/
def deleteItem (fs : DelFS) (itemId : String) : AICleanupResult :=
  let itemPath := fs.decodeId itemId
  let sizeBefore := fs.sizeOf itemPath
  match fs.statIsDir itemPath with
  | .err m => ⟨itemId, false, 0, "0 B", some m⟩
  | .ok isDir =>
    match fs.remove itemPath isDir with
    | .err m => ⟨itemId, false, 0, "0 B", some m⟩
    | .ok _ => ⟨itemId, true, sizeBefore, formatBytes sizeBefore, none⟩

/-- Embeds `AICleanupScanner.deleteMultiple` (lines 354-363): delete each id
in order, collecting one result per id. -/
def deleteMultiple (fs : DelFS) (itemIds : List String) : List AICleanupResult :=
  itemIds.map (fun id => deleteItem fs id)

/-! ### Junk-pattern matching

Each `RegExp` of `JUNK_PATTERNS` (lines 93-128) is compiled by hand
into a decidable predicate.  All four patterns are regular
expressions, for which the `isExactMatch` branch and the generic
branch of `matchesPattern` both call `pattern.test(name)`, so
`matchesPattern` reduces to first-match over the list. -/

/-- The Windows reserved device names matched (case-insensitively and
anchored) by the first junk pattern. -/
def windowsReservedNames : List String :=
  ["nul", "con", "prn", "aux"]
    ++ (List.range 9).map (fun k => "com" ++ toString (k + 1))
    ++ (List.range 9).map (fun k => "lpt" ++ toString (k + 1))

/-- Test for `/^(nul|NUL|con|CON|prn|PRN|aux|AUX|com[1-9]|COM[1-9]|lpt[1-9]|LPT[1-9])$/i`. -/
def matchWindowsReserved (name : String) : Bool :=
  windowsReservedNames.contains name.toLower

/-- Test for `/^\.aider\.(tags|chat|history|input).*$/`. -/
def matchAider (name : String) : Bool :=
  ["tags", "chat", "history", "input"].any
    (fun k => name.startsWith (".aider." ++ k))

/-- Test for `/^\.claude\.json\.backup$/`. -/
def matchClaudeBackup (name : String) : Bool :=
  name == ".claude.json.backup"

/-- Test for `/^(ai_temp_|_ai_draft_|\.ai_tmp_)/i`. -/
def matchAiTemp (name : String) : Bool :=
  ["ai_temp_", "_ai_draft_", ".ai_tmp_"].any
    (fun p => name.toLower.startsWith p)

/-- One entry of `JUNK_PATTERNS` (lines 84-91), with the regular
expression compiled to a decidable test. -/
structure JunkPattern where
  test : String → Bool
  source : String
  description : String
  descriptionZh : String
  riskLevel : RiskLevel

/-- Embeds `JUNK_PATTERNS` (lines 93-128). -/
def JUNK_PATTERNS : List JunkPattern :=
  [ ⟨matchWindowsReserved, "AI Tool Bug",
      "Windows reserved device name accidentally created as file - safe to delete",
      "Windows 保留设备名被意外创建为文件 - 可安全删除", .low⟩,
    ⟨matchAider, "Aider",
      "Aider session/history files - usually safe to delete after session ends",
      "Aider 会话/历史文件 - 会话结束后通常可安全删除", .low⟩,
    ⟨matchClaudeBackup, "Claude Code",
      "Claude Code backup file - safe to delete if main config exists",
      "Claude Code 备份文件 - 如主配置存在则可安全删除", .low⟩,
    ⟨matchAiTemp, "AI Tool",
      "AI temporary working files - safe to delete",
      "AI 临时工作文件 - 可安全删除", .low⟩ ]

/-- Embeds `AICleanupScanner.matchesPattern` (lines 170-187): the first
pattern matching the name, if any. -/
def matchesPattern (name : String) : Option JunkPattern :=
  JUNK_PATTERNS.find? (fun p => p.test name)

/-! ### Scanning -/

/-- The UI language field of `AICleanupScanner` (line 161). -/
inductive ScanLang where
  | enUS
  | zhCN
deriving DecidableEq, Repr

/-- A filesystem subtree as the scanner observes it: a regular file
with size and mtime, a directory with mtime and named children, or a
node on which `fs.stat`/`fs.readdir` throws (permission denied). -/
inductive FSNode where
  | file (size : Nat) (mtime : Int)
  | dir (mtime : Int) (entries : List (String × FSNode))
  | denied

/-- Whether a directory entry `isDirectory()`. -/
def FSNode.isDir : FSNode → Bool
  | .dir _ _ => true
  | _ => false

/-- Models `fs.stat` on a node: size and mtime, or failure on a denied node.
A directory's `stats.size` is irrelevant to the scanner (it uses
`getSize` for directories) and is reported as 0. -/
def FSNode.stat : FSNode → FSResult (Nat × Int)
  | .file sz mt => .ok (sz, mt)
  | .dir mt _ => .ok (0, mt)
  | .denied => .err "EACCES"

mutual

/-- Embeds `getSize` (lines 61-79): a file's size; a directory's recursive
total; 0 where `fs.stat` throws (the catch-all returns 0). -/
def sizeOfNode : FSNode → Nat
  | .file sz _ => sz
  | .dir _ entries => sizeOfEntries entries
  | .denied => 0

/-- Sum of `getSize` over a directory's entries. -/
def sizeOfEntries : List (String × FSNode) → Nat
  | [] => 0
  | e :: rest => sizeOfNode e.2 + sizeOfEntries rest

end

/-- Base64 alphabet, for the `Buffer.from(fullPath).toString('base64')`
item ids (line 210). -/
def base64Chars : List Char :=
  "ABCDEFGHIJKLMNOPQRSTUVWXYZabcdefghijklmnopqrstuvwxyz0123456789+/".toList

/-- One base64 output character. -/
def b64Char (n : Nat) : Char := base64Chars.getD n 'A'

/-- Standard base64 encoding of a byte list, with padding. -/
def encodeB64 : List Nat → String
  | a :: b :: c :: rest =>
    let triple := (a % 256) * 65536 + (b % 256) * 256 + c % 256
    String.mk [b64Char (triple / 262144), b64Char (triple / 4096 % 64),
      b64Char (triple / 64 % 64), b64Char (triple % 64)] ++ encodeB64 rest
  | [a, b] =>
    let triple := (a % 256) * 65536 + (b % 256) * 256
    String.mk [b64Char (triple / 262144), b64Char (triple / 4096 % 64),
      b64Char (triple / 64 % 64)] ++ "="
  | [a] =>
    let triple := (a % 256) * 65536
    String.mk [b64Char (triple / 262144), b64Char (triple / 4096 % 64)] ++ "=="
  | [] => ""

/-- Models `Buffer.from(fullPath).toString('base64')` (line 210): base64 of
the path's UTF-8 bytes. -/
def encodeId (s : String) : String :=
  encodeB64 (s.toUTF8.toList.map (fun b => b.toNat))

/-- The directory names skipped during recursion (line 228). -/
def skipDirs : List String :=
  ["node_modules", ".git", ".svn", ".hg", "vendor", "__pycache__", "venv", ".venv"]

/-- Language-dependent description choice (line 217). -/
def descriptionFor (lang : ScanLang) (p : JunkPattern) : String :=
  match lang with
  | .zhCN => p.descriptionZh
  | .enUS => p.description

mutual

/-- Embeds `AICleanupScanner.scanDirectory` (lines 192-240): list the
directory (failures yield no results), emit a junk record for each
entry matching a pattern (skipping entries whose `stat` throws), and
recurse into non-skipped subdirectories while `currentDepth <
maxDepth`. -/
def scanDirectory (lang : ScanLang) (node : FSNode) (dirPath : String)
    (maxDepth currentDepth : Nat) : List AIJunkFile :=
  if currentDepth > maxDepth then []
  else
    match node with
    | .dir _ entries => scanEntries lang entries dirPath maxDepth currentDepth
    | _ => []

/-- The entry loop of `scanDirectory` (lines 200-234). -/
def scanEntries (lang : ScanLang) (entries : List (String × FSNode))
    (dirPath : String) (maxDepth currentDepth : Nat) : List AIJunkFile :=
  match entries with
  | [] => []
  | (name, child) :: rest =>
    let fullPath := dirPath ++ "/" ++ name
    let matched : List AIJunkFile :=
      match matchesPattern name with
      | some pat =>
        match child.stat with
        | .err _ => []
        | .ok st =>
          let size := if child.isDir then sizeOfNode child else st.1
          [⟨encodeId fullPath, name, fullPath, size, formatBytes size,
            (if child.isDir then .directory else .file), pat.source,
            descriptionFor lang pat, pat.riskLevel, some st.2⟩]
      | none => []
    let sub : List AIJunkFile :=
      if child.isDir && decide (currentDepth < maxDepth)
          && !(skipDirs.contains name) then
        scanDirectory lang child fullPath maxDepth (currentDepth + 1)
      else []
    matched ++ sub ++ scanEntries lang rest dirPath maxDepth currentDepth

end

/-- Embeds `getScanDirectories` (lines 133-158): the home directory followed
by the common project directories beneath it. -/
def getScanDirectories (homeDir : String) : List String :=
  [homeDir,
   homeDir ++ "/Desktop", homeDir ++ "/Documents", homeDir ++ "/Projects",
   homeDir ++ "/projects", homeDir ++ "/dev", homeDir ++ "/Development",
   homeDir ++ "/workspace", homeDir ++ "/code", homeDir ++ "/Code",
   homeDir ++ "/repos", homeDir ++ "/git"]

/-- The scanner's view of the host: the home directory path, the
filesystem subtree rooted at each scan directory (`none` when
`fs.access` rejects), and the UI language. -/
structure ScanEnv where
  homeDir : String
  root : String → Option FSNode
  lang : ScanLang

/-- The JS `Map`-based dedup of `scanAll` (lines 265-267):
`Array.from(new Map(files.map(f => [f.path, f])).values())` keeps one
entry per path — the last inserted value, at the position of the
key's first insertion. -/
def dedupByPath (files : List AIJunkFile) : List AIJunkFile :=
  let keys := files.foldl
    (fun ks f => if ks.contains f.path then ks else ks ++ [f.path]) []
  keys.filterMap (fun p => (files.filter (fun f => f.path == p)).getLast?)

/-- The comparator `(a, b) => b.size - a.size` (line 270) as a sort
order: `a` precedes `b` when `b.size ≤ a.size`. -/
def bySizeDesc (a b : AIJunkFile) : Bool := b.size ≤ a.size

/-- Embeds `AICleanupScanner.scanAll` (lines 245-281): scan each accessible
directory (depth 1 for the home directory, 2 otherwise), collect the
results, dedup by path, sort by size descending (JS `sort` is a
stable comparator sort, modelled by `mergeSort`), and total the
sizes. -/
def scanAll (env : ScanEnv) : AICleanupScanResult :=
  let scanDirs := getScanDirectories env.homeDir
  let gathered := scanDirs.foldl
    (fun (acc : List AIJunkFile × List String) dir =>
      match env.root dir with
      | none => acc
      | some node =>
        let depth := if dir = env.homeDir then 1 else 2
        (acc.1 ++ scanDirectory env.lang node dir depth 0, acc.2 ++ [dir]))
    ([], [])
  let uniqueFiles := dedupByPath gathered.1
  let sorted := uniqueFiles.mergeSort bySizeDesc
  let totalSize := sorted.foldl (fun sum f => sum + f.size) 0
  ⟨sorted, totalSize, formatBytes totalSize, 0, gathered.2⟩

/-- A concrete deletion oracle (everything succeeds, every tree
measures 42 bytes, ids decode to themselves) used to witness the
deletion theorems. -/
def fsAllOk : DelFS :=
  ⟨fun s => s, fun _ => 42, fun _ => FSResult.ok false, fun _ _ => FSResult.ok ()⟩

/-! ## Helper lemmas -/

theorem String.ne_empty_of_length_pos {s : String} (h : 0 < s.length) : s ≠ "" := by
  intro he
  subst he
  simp at h

theorem String.length_pos_of_ne_empty {s : String} (h : s ≠ "") : 0 < s.length := by
  cases s with
  | mk data =>
    cases data with
    | nil => exact absurd rfl h
    | cons c cs => simp [String.length]

theorem String.append_ne_empty_left {s t : String} (h : s ≠ "") : s ++ t ≠ "" := by
  have hp := String.length_pos_of_ne_empty h
  apply String.ne_empty_of_length_pos
  rw [String.length_append]
  omega

theorem ne_empty_of_isEmpty_false {s : String} (h : s.isEmpty = false) : s ≠ "" := by
  intro he
  subst he
  rw [show ("" : String).isEmpty = true from rfl] at h
  simp at h

theorem mem_splitWsTokens_ne_empty {line t : String} (h : t ∈ splitWsTokens line) :
    t ≠ "" := by
  have h2 := (List.mem_filter.mp h).2
  intro he
  subst he
  rw [show ("" : String).isEmpty = true from rfl] at h2
  simp at h2

theorem joinWith_ne_empty_of_head {sep x : String} {xs : List String}
    (hx : x ≠ "") : joinWith sep (x :: xs) ≠ "" := by
  cases xs with
  | nil => simpa [joinWith] using hx
  | cons y ys =>
    have hp := String.length_pos_of_ne_empty hx
    apply String.ne_empty_of_length_pos
    show 0 < (x ++ sep ++ joinWith sep (y :: ys)).length
    rw [String.length_append, String.length_append]
    omega

theorem scanCandidates_fst_eq (found : String → Bool) (mk : String → SearchResult) :
    ∀ l : List String, (scanCandidates found mk l).1 = (l.find? found).map mk := by
  intro l
  induction l with
  | nil => simp [scanCandidates]
  | cons d rest ih =>
    by_cases h : found d = true
    · simp [scanCandidates, h, List.find?_cons]
    · rw [Bool.not_eq_true] at h
      simp [scanCandidates, h, List.find?_cons, ih]

theorem scanCandidates_method {found : String → Bool} {mk : String → SearchResult}
    {l : List String} {r : SearchResult}
    (h : (scanCandidates found mk l).1 = some r) : ∃ d, r = mk d := by
  rw [scanCandidates_fst_eq] at h
  obtain ⟨d, -, hd⟩ := Option.map_eq_some'.mp h
  exact ⟨d, hd.symm⟩

theorem checkDirectCommand_method {env : SearchEnv} {e : String} {r : SearchResult}
    (h : (checkDirectCommand env e).1 = some r) : r.method = .direct_command := by
  cases hdw : env.directWorks with
  | false => simp [checkDirectCommand, hdw] at h
  | true =>
    simp [checkDirectCommand, hdw] at h
    rw [← h]

theorem scanPathEnvironment_method {env : SearchEnv} {e : String} {r : SearchResult}
    (h : (scanPathEnvironment env e).1 = some r) : r.method = .path_scan := by
  obtain ⟨d, hd⟩ := scanCandidates_method h
  rw [hd]

theorem searchCustomPaths_method {env : SearchEnv} {ps : List String} {r : SearchResult}
    (h : (searchCustomPaths env ps).1 = some r) : r.method = .custom_path := by
  obtain ⟨d, hd⟩ := scanCandidates_method h
  rw [hd]

theorem searchCommonPaths_method {env : SearchEnv} {ps : List String} {r : SearchResult}
    (h : (searchCommonPaths env ps).1 = some r) : r.method = .common_path := by
  obtain ⟨d, hd⟩ := scanCandidates_method h
  rw [hd]

theorem getEntry_setEntry_self (c : PathCache) (m : ManagerId) (v : CacheEntry) :
    (c.setEntry m v).getEntry m = some v := by
  simp [PathCache.setEntry, PathCache.getEntry, List.find?_cons]

theorem findExecutableCached_hit {c : PathCache} {m : ManagerId} {v : CacheEntry}
    (env : SearchEnv) (e : String) (co cu : List String)
    (h : c.getEntry m = some v) :
    findExecutableCached env c m e co cu = (v, c, 0) := by
  simp [findExecutableCached, h]

theorem findExecutableCached_entry (env : SearchEnv) (c : PathCache) (m : ManagerId)
    (e : String) (co cu : List String) :
    ((findExecutableCached env c m e co cu).2.1).getEntry m =
      some (findExecutableCached env c m e co cu).1 := by
  unfold findExecutableCached
  cases h : c.getEntry m with
  | some v => simp [h]
  | none => simp [h, getEntry_setEntry_self]

theorem lookupStep_fixed {c : PathCache} {m : ManagerId} {v : CacheEntry}
    (env : SearchEnv) (e : String) (co cu : List String)
    (h : c.getEntry m = some v) : lookupStep env m e co cu c = c := by
  simp [lookupStep, findExecutableCached_hit env e co cu h]

/-! ## Claim theorems: package discovery -/

/-- C1: status classification is a pure, total function of the search
result's method alone: `direct_command`/`path_scan` yield `available`
with `inPath = true`; `common_path`/`custom_path` yield `path_missing`
with `inPath = false`; an absent search result yields `not_installed`
with `inPath = false`; and no input other than the method influences
the status/inPath classification. -/
theorem classifyResult_pure_of_method (m : ManagerId) (r : SearchResult) :
    ((r.method = .direct_command ∨ r.method = .path_scan) →
      (classifyResult m (some r)).status = .available ∧
      (classifyResult m (some r)).inPath = true) ∧
    ((r.method = .common_path ∨ r.method = .custom_path) →
      (classifyResult m (some r)).status = .path_missing ∧
      (classifyResult m (some r)).inPath = false) ∧
    ((classifyResult m none).status = .not_installed ∧
      (classifyResult m none).inPath = false) ∧
    (∀ r' : SearchResult, r.method = r'.method →
      (classifyResult m (some r)).status = (classifyResult m (some r')).status ∧
      (classifyResult m (some r)).inPath = (classifyResult m (some r')).inPath) := by
  obtain ⟨p, mth, ip⟩ := r
  refine ⟨?_, ?_, by simp [classifyResult], ?_⟩
  · rintro (h | h) <;> (simp only at h; subst h; simp [classifyResult])
  · rintro (h | h) <;> (simp only at h; subst h; simp [classifyResult])
  · rintro ⟨p', mth', ip'⟩ h
    simp only at h
    subst h
    cases mth <;> simp [classifyResult]

/-- Witness for C1 at a concrete search result: a common-path result
classifies as `path_missing` with `inPath = false`. -/
theorem classifyResult_pure_of_method_witness :
    ((⟨"/opt/homebrew/bin/brew", .common_path, false⟩ : SearchResult).method =
        .common_path ∨
      (⟨"/opt/homebrew/bin/brew", .common_path, false⟩ : SearchResult).method =
        .custom_path) ∧
    ((classifyResult .brew
        (some ⟨"/opt/homebrew/bin/brew", .common_path, false⟩)).status =
          .path_missing ∧
      (classifyResult .brew
        (some ⟨"/opt/homebrew/bin/brew", .common_path, false⟩)).inPath = false) :=
  ⟨Or.inl rfl,
    (classifyResult_pure_of_method .brew
      ⟨"/opt/homebrew/bin/brew", .common_path, false⟩).2.1 (Or.inl rfl)⟩

/-- C2 counterexample: the claim's strict Tier 1 → 2 → 3 (common) →
4 (custom) order, with each tier attempted only if the previous
produced nothing, would force the common-path result `"c"` in an
environment in which Tiers 1 and 2 fail and both the common candidate
`"c"` and the custom candidate `"u"` verify; the modelled search
instead returns the custom-path result, because the spec's binding
contract (spec §4.2 Property, §8, §9) places custom paths ahead of
common paths. -/
theorem findExecutable_common_tier_first_refuted :
    (findExecutable ⟨false, [], fun _ => false, fun _ => true⟩ "x" ["c"] ["u"]).1 ≠
      some ⟨"c", .common_path, false⟩ ∧
    (findExecutable ⟨false, [], fun _ => false, fun _ => true⟩ "x" ["c"] ["u"]).1 =
      some ⟨"u", .custom_path, false⟩ := by
  constructor
  · decide
  · decide

/-- C2 (amended): the four tiers are attempted in the strict order
Tier 1 (direct command), Tier 2 (PATH scan), Tier 4 (custom paths),
Tier 3 (common paths), each tier attempted only if the previous
produced nothing; the search returns immediately on the first
successful tier — visible in the probe count, which includes no probe
of any later tier — and the returned method identifies that tier. -/
theorem findExecutable_tier_order (env : SearchEnv) (executable : String)
    (commonPaths customPaths : List String) :
    (∀ r, (checkDirectCommand env executable).1 = some r →
      findExecutable env executable commonPaths customPaths =
        (some r, (checkDirectCommand env executable).2) ∧
      r.method = .direct_command) ∧
    ((checkDirectCommand env executable).1 = none →
      ∀ r, (scanPathEnvironment env executable).1 = some r →
      findExecutable env executable commonPaths customPaths =
        (some r, (checkDirectCommand env executable).2 +
          (scanPathEnvironment env executable).2) ∧
      r.method = .path_scan) ∧
    ((checkDirectCommand env executable).1 = none →
      (scanPathEnvironment env executable).1 = none →
      ∀ r, (searchCustomPaths env customPaths).1 = some r →
      findExecutable env executable commonPaths customPaths =
        (some r, (checkDirectCommand env executable).2 +
          (scanPathEnvironment env executable).2 +
          (searchCustomPaths env customPaths).2) ∧
      r.method = .custom_path) ∧
    ((checkDirectCommand env executable).1 = none →
      (scanPathEnvironment env executable).1 = none →
      (searchCustomPaths env customPaths).1 = none →
      findExecutable env executable commonPaths customPaths =
        ((searchCommonPaths env commonPaths).1,
          (checkDirectCommand env executable).2 +
          (scanPathEnvironment env executable).2 +
          (searchCustomPaths env customPaths).2 +
          (searchCommonPaths env commonPaths).2) ∧
      ∀ r, (searchCommonPaths env commonPaths).1 = some r →
        r.method = .common_path) := by
  refine ⟨?_, ?_, ?_, ?_⟩
  · intro r h
    exact ⟨by simp [findExecutable, h], checkDirectCommand_method h⟩
  · intro h1 r h2
    exact ⟨by simp [findExecutable, h1, h2], scanPathEnvironment_method h2⟩
  · intro h1 h2 r h3
    exact ⟨by simp [findExecutable, h1, h2, h3], searchCustomPaths_method h3⟩
  · intro h1 h2 h3
    exact ⟨by simp [findExecutable, h1, h2, h3],
      fun r hr => searchCommonPaths_method hr⟩

/-- Witness for the amended C2 in an environment where Tier 1 fails
and Tier 2 finds a verified executable in the single PATH directory:
the search stops at Tier 2 after 1 + 1 probes with method
`path_scan`. -/
theorem findExecutable_tier_order_witness :
    findExecutable ⟨false, ["d"], fun _ => true, fun _ => false⟩ "x" [] [] =
      (some ⟨"d" ++ "/" ++ "x", .path_scan, true⟩, 1 + 1) ∧
    (⟨"d" ++ "/" ++ "x", .path_scan, true⟩ : SearchResult).method = .path_scan :=
  ((findExecutable_tier_order ⟨false, ["d"], fun _ => true, fun _ => false⟩
      "x" [] []).2.1 rfl ⟨"d" ++ "/" ++ "x", .path_scan, true⟩ rfl)

/-- C3: whenever Tiers 1 and 2 produce nothing and both a configured
custom path and a common path would resolve the executable, the
search returns the custom-path match: custom paths are searched
before default common paths. -/
theorem findExecutable_custom_over_common (env : SearchEnv) (executable : String)
    (commonPaths customPaths : List String) (p : String)
    (h1 : env.directWorks = false)
    (h2 : ∀ d ∈ env.pathDirs, env.dirHasVerified d = false)
    (h3 : customPaths.find? env.probePath = some p)
    (h4 : ∃ q, commonPaths.find? env.probePath = some q) :
    (findExecutable env executable commonPaths customPaths).1 =
      some ⟨p, .custom_path, false⟩ := by
  obtain ⟨q, hq⟩ := h4
  have t1 : (checkDirectCommand env executable).1 = none := by
    simp [checkDirectCommand, h1]
  have t2 : (scanPathEnvironment env executable).1 = none := by
    have hnone : env.pathDirs.find? env.dirHasVerified = none :=
      List.find?_eq_none.mpr (fun d hd => by simp [h2 d hd])
    simp [scanPathEnvironment, scanCandidates_fst_eq, hnone]
  have t4 : (searchCustomPaths env customPaths).1 =
      some ⟨p, .custom_path, false⟩ := by
    simp [searchCustomPaths, scanCandidates_fst_eq, h3]
  simp [findExecutable, t1, t2, t4]

/-- Witness for C3: with Tiers 1/2 failing and every candidate path
verifying, the custom candidate `"u"` wins over the common candidate
`"c"`. -/
theorem findExecutable_custom_over_common_witness :
    (findExecutable ⟨false, [], fun _ => false, fun _ => true⟩ "x" ["c"] ["u"]).1 =
      some ⟨"u", .custom_path, false⟩ :=
  findExecutable_custom_over_common ⟨false, [], fun _ => false, fun _ => true⟩
    "x" ["c"] ["u"] "u" rfl (by simp) rfl ⟨"c", rfl⟩

/-- C4: once a first resolution has populated the cache for a manager
(including a negative entry recording "not found"), every subsequent
lookup for that manager — until `clear()` — performs zero additional
probes, leaves the cache unchanged and returns a result identical to
the first resolution. -/
theorem cachedSearch_idempotent (env : SearchEnv) (m : ManagerId)
    (executable : String) (commonPaths customPaths : List String)
    (c : PathCache) (n : Nat) :
    findExecutableCached env
      ((lookupStep env m executable commonPaths customPaths)^[n]
        (findExecutableCached env c m executable commonPaths customPaths).2.1)
      m executable commonPaths customPaths =
    ((findExecutableCached env c m executable commonPaths customPaths).1,
      (findExecutableCached env c m executable commonPaths customPaths).2.1, 0) := by
  have hent := findExecutableCached_entry env c m executable commonPaths customPaths
  rw [Function.iterate_fixed
    (lookupStep_fixed env executable commonPaths customPaths hent) n]
  exact findExecutableCached_hit env executable commonPaths customPaths hent

/-- C6: injecting a failure into exactly one manager's probe converts
that manager's status to `not_installed`, does not change the status
of any other manager in the same batch, and does not abort the
aggregate call (one status per probed manager is still returned). -/
theorem discover_failure_isolation (probe : ManagerId → ProbeOutcome)
    (m0 : ManagerId) (mgrs : List ManagerId) :
    (discoverAvailableManagers (injectFailure probe m0) mgrs).length = mgrs.length ∧
    ∀ (i : Nat) (h : i < mgrs.length)
      (h2 : i < (discoverAvailableManagers (injectFailure probe m0) mgrs).length)
      (h3 : i < (discoverAvailableManagers probe mgrs).length),
      (mgrs.get ⟨i, h⟩ ≠ m0 →
        (discoverAvailableManagers (injectFailure probe m0) mgrs).get ⟨i, h2⟩ =
          (discoverAvailableManagers probe mgrs).get ⟨i, h3⟩) ∧
      (mgrs.get ⟨i, h⟩ = m0 →
        ((discoverAvailableManagers (injectFailure probe m0) mgrs).get
            ⟨i, h2⟩).status = .not_installed) := by
  constructor
  · simp [discoverAvailableManagers]
  · intro i h h2 h3
    constructor
    · intro hne
      have hne2 : mgrs[i] ≠ m0 := hne
      simp [discoverAvailableManagers, List.get_map, injectFailure, hne2]
    · intro heq
      have heq2 : mgrs[i] = m0 := heq
      simp [discoverAvailableManagers, List.get_map, injectFailure, heq2,
        probeStatus, classifyResult]

/-- Witness for C6: failing the brew probe leaves the npm entry of the
batch unchanged. -/
theorem discover_failure_isolation_witness :
    (discoverAvailableManagers
        (injectFailure (fun _ => ProbeOutcome.success none) ManagerId.brew)
        [ManagerId.brew, ManagerId.npm]).get ⟨1, by decide⟩ =
      (discoverAvailableManagers (fun _ => ProbeOutcome.success none)
        [ManagerId.brew, ManagerId.npm]).get ⟨1, by decide⟩ :=
  ((discover_failure_isolation (fun _ => ProbeOutcome.success none) .brew
      [.brew, .npm]).2 1 (by decide) (by decide) (by decide)).1 (by decide)

/-- C7: `checkAvailability` returns true exactly when the tiered
search resolved the executable, i.e. when the classified status is
`available` or `path_missing`, and false exactly when the status is
`not_installed`. -/
theorem checkAvailability_iff_found (env : SearchEnv) (m : ManagerId)
    (executable : String) (commonPaths customPaths : List String) :
    (checkAvailability env executable commonPaths customPaths = true ↔
      ((classifyResult m
          (findExecutable env executable commonPaths customPaths).1).status =
            .available ∨
        (classifyResult m
          (findExecutable env executable commonPaths customPaths).1).status =
            .path_missing)) ∧
    (checkAvailability env executable commonPaths customPaths = false ↔
      (classifyResult m
        (findExecutable env executable commonPaths customPaths).1).status =
          .not_installed) := by
  unfold checkAvailability
  cases h : (findExecutable env executable commonPaths customPaths).1 with
  | none => simp [h, classifyResult]
  | some r =>
    obtain ⟨p, mth, ip⟩ := r
    cases mth <;> simp [h, classifyResult]

/-! ## Claim theorems: parser validity -/

theorem parseBrewLines_valid {loc raw : String} {r : PackageRecord}
    (h : r ∈ parseBrewLines loc raw) :
    r.name ≠ "" ∧ r.version ≠ "" ∧ r.manager = .brew := by
  obtain ⟨line, hline, hf⟩ := List.mem_filterMap.mp h
  cases htok : splitWsTokens line with
  | nil => rw [htok] at hf; simp at hf
  | cons nm rest =>
    cases rest with
    | nil => rw [htok] at hf; simp at hf
    | cons v rest2 =>
      rw [htok] at hf
      simp only [Option.some.injEq] at hf
      subst hf
      refine ⟨?_, ?_, rfl⟩
      · exact mem_splitWsTokens_ne_empty
          (by rw [htok]; exact List.mem_cons_self _ _)
      · exact joinWith_ne_empty_of_head (mem_splitWsTokens_ne_empty
          (by rw [htok]; exact List.mem_cons_of_mem _ (List.mem_cons_self _ _)))

theorem condaEntry_valid {v : JVal} {r : PackageRecord}
    (h : condaEntry v = some r) :
    r.name ≠ "" ∧ r.version ≠ "" ∧ r.manager = .conda := by
  unfold condaEntry at h
  split at h
  · split at h
    · split at h
      · exact absurd h (by simp)
      · rename_i hne
        simp only [Option.some.injEq] at h
        subst h
        rw [Bool.or_eq_true, not_or, Bool.not_eq_true, Bool.not_eq_true] at hne
        exact ⟨ne_empty_of_isEmpty_false hne.1, ne_empty_of_isEmpty_false hne.2, rfl⟩
    · exact absurd h (by simp)
  · exact absurd h (by simp)

theorem parseCondaText_valid {raw : String} {r : PackageRecord}
    (h : r ∈ parseCondaText raw) :
    r.name ≠ "" ∧ r.version ≠ "" ∧ r.manager = .conda := by
  obtain ⟨line, hline, hf⟩ := List.mem_filterMap.mp h
  split at hf
  · simp at hf
  · cases htok : splitWsTokens line with
    | nil => rw [htok] at hf; simp at hf
    | cons nm rest =>
      cases rest with
      | nil => rw [htok] at hf; simp at hf
      | cons ver rest2 =>
        rw [htok] at hf
        simp only [Option.some.injEq] at hf
        subst hf
        refine ⟨?_, ?_, rfl⟩
        · exact mem_splitWsTokens_ne_empty
            (by rw [htok]; exact List.mem_cons_self _ _)
        · exact mem_splitWsTokens_ne_empty
            (by rw [htok]; exact List.mem_cons_of_mem _ (List.mem_cons_self _ _))

theorem parseCondaOutput_valid {raw : String} {r : PackageRecord}
    (h : r ∈ parseCondaOutput raw) :
    r.name ≠ "" ∧ r.version ≠ "" ∧ r.manager = .conda := by
  unfold parseCondaOutput at h
  split at h
  · obtain ⟨v, -, hv⟩ := List.mem_filterMap.mp h
    exact condaEntry_valid hv
  · exact parseCondaText_valid h
  · exact parseCondaText_valid h

theorem pipxVenvEntry_valid {e : String × JVal} {r : PackageRecord}
    (h : pipxVenvEntry e = some r) :
    r.name ≠ "" ∧ r.version ≠ "" ∧ r.manager = .pipx := by
  unfold pipxVenvEntry at h
  split at h
  · split at h
    · split at h
      · split at h
        · split at h
          · exact absurd h (by simp)
          · rename_i hne
            simp only [Option.some.injEq] at h
            subst h
            rw [Bool.or_eq_true, not_or, Bool.not_eq_true, Bool.not_eq_true] at hne
            exact ⟨ne_empty_of_isEmpty_false hne.1,
              ne_empty_of_isEmpty_false hne.2, rfl⟩
        · exact absurd h (by simp)
      · exact absurd h (by simp)
    · exact absurd h (by simp)
  · exact absurd h (by simp)

theorem parsePipxOutput_valid {raw : String} {r : PackageRecord}
    (h : r ∈ parsePipxOutput raw) :
    r.name ≠ "" ∧ r.version ≠ "" ∧ r.manager = .pipx := by
  unfold parsePipxOutput at h
  split at h
  · split at h
    · obtain ⟨e, -, he⟩ := List.mem_filterMap.mp h
      exact pipxVenvEntry_valid he
    · simp at h
  · simp at h

theorem parsePoetryOutput_valid {raw : String} {r : PackageRecord}
    (h : r ∈ parsePoetryOutput raw) :
    r.name ≠ "" ∧ r.version ≠ "" ∧ r.manager = .poetry := by
  obtain ⟨line, hline, hf⟩ := List.mem_filterMap.mp h
  by_cases he : (trimStr line).isEmpty = true
  · rw [if_pos he] at hf; simp at hf
  · rw [if_neg he] at hf
    simp only [Option.some.injEq] at hf
    subst hf
    exact ⟨ne_empty_of_isEmpty_false (Bool.not_eq_true _ ▸ he), by simp, rfl⟩

theorem parsePyenvOutput_valid {raw : String} {r : PackageRecord}
    (h : r ∈ parsePyenvOutput raw) :
    r.name ≠ "" ∧ r.version ≠ "" ∧ r.manager = .pyenv := by
  obtain ⟨line, hline, hf⟩ := List.mem_filterMap.mp h
  by_cases he : (trimStr line).isEmpty = true
  · rw [if_pos he] at hf; simp at hf
  · rw [if_neg he] at hf
    simp only [Option.some.injEq] at hf
    subst hf
    exact ⟨by simp, ne_empty_of_isEmpty_false (Bool.not_eq_true _ ▸ he), rfl⟩

/-- C5: every handler's `parseOutput` is a total function of the raw
input (the Lean embedding has no exceptions: totality is
well-definedness of `parseOutputOf`), and every record it produces has
a non-empty name, a non-empty version, and the manager field equal to
that handler's id — for every input string, including malformed,
truncated, empty, or whitespace-only input. -/
theorem parseOutput_total_and_valid (m : ManagerId) (raw : String)
    (r : PackageRecord) (h : r ∈ parseOutputOf m raw) :
    r.name ≠ "" ∧ r.version ≠ "" ∧ r.manager = m := by
  cases m with
  | brew => exact parseBrewLines_valid h
  | conda => exact parseCondaOutput_valid h
  | pipx => exact parsePipxOutput_valid h
  | poetry => exact parsePoetryOutput_valid h
  | pyenv => exact parsePyenvOutput_valid h
  | npm => simp [parseOutputOf] at h
  | pip => simp [parseOutputOf] at h
  | composer => simp [parseOutputOf] at h
  | cargo => simp [parseOutputOf] at h
  | gem => simp [parseOutputOf] at h

/-- Witness for C5: the pyenv parser on the concrete raw output
`"3.10"` produces the record `python / 3.10`, which is non-empty in
name and version and tagged `pyenv`. -/
theorem parseOutput_total_and_valid_witness :
    (⟨"python", "3.10", .pyenv, "pyenv-version", none, none⟩ : PackageRecord) ∈
        parseOutputOf .pyenv "3.10" ∧
    ((⟨"python", "3.10", .pyenv, "pyenv-version", none, none⟩ :
        PackageRecord).name ≠ "" ∧
      (⟨"python", "3.10", .pyenv, "pyenv-version", none, none⟩ :
        PackageRecord).version ≠ "" ∧
      (⟨"python", "3.10", .pyenv, "pyenv-version", none, none⟩ :
        PackageRecord).manager = .pyenv) :=
  ⟨by decide, parseOutput_total_and_valid .pyenv "3.10" _ (by decide)⟩

/-! ## Claim theorems: AI cleanup scanner -/

theorem deleteItem_id (fs : DelFS) (itemId : String) :
    (deleteItem fs itemId).id = itemId := by
  cases h1 : fs.statIsDir (fs.decodeId itemId) with
  | err m => simp [deleteItem, h1]
  | ok isDir =>
    cases h2 : fs.remove (fs.decodeId itemId) isDir with
    | err m => simp [deleteItem, h1, h2]
    | ok u => simp [deleteItem, h1, h2]

/-- C8: `deleteItem` never throws: it always returns a result record
whose id is the requested id; on any failure the record has
`success = false`, `freedSpace = 0`, `freedSpaceFormatted = "0 B"`
and an error message; on success it has `success = true`,
`freedSpace` equal to the size measured (via `getSize`) immediately
before deletion, and `freedSpaceFormatted` equal to `formatBytes` of
that size. -/
theorem deleteItem_never_throws (fs : DelFS) (itemId : String) :
    (deleteItem fs itemId).id = itemId ∧
    ((deleteItem fs itemId).success = false →
      (deleteItem fs itemId).freedSpace = 0 ∧
      (deleteItem fs itemId).freedSpaceFormatted = "0 B" ∧
      (deleteItem fs itemId).error.isSome = true) ∧
    ((deleteItem fs itemId).success = true →
      (deleteItem fs itemId).freedSpace = fs.sizeOf (fs.decodeId itemId) ∧
      (deleteItem fs itemId).freedSpaceFormatted =
        formatBytes (fs.sizeOf (fs.decodeId itemId)) ∧
      (deleteItem fs itemId).error = none) := by
  cases h1 : fs.statIsDir (fs.decodeId itemId) with
  | err m => simp [deleteItem, h1]
  | ok isDir =>
    cases h2 : fs.remove (fs.decodeId itemId) isDir with
    | err m => simp [deleteItem, h1, h2]
    | ok u => simp [deleteItem, h1, h2]

/-- Witness for C8 on a concrete all-succeeding filesystem oracle:
the successful deletion reports the pre-deletion size. -/
theorem deleteItem_never_throws_witness :
    (deleteItem fsAllOk "target").success = true ∧
    ((deleteItem fsAllOk "target").freedSpace =
        fsAllOk.sizeOf (fsAllOk.decodeId "target") ∧
      (deleteItem fsAllOk "target").freedSpaceFormatted =
        formatBytes (fsAllOk.sizeOf (fsAllOk.decodeId "target")) ∧
      (deleteItem fsAllOk "target").error = none) :=
  ⟨rfl, (deleteItem_never_throws fsAllOk "target").2.2 rfl⟩

/-- C10: `deleteMultiple` returns exactly one result per input id, in
the same order as the input list, and each result's id equals the
corresponding input id. -/
theorem deleteMultiple_one_per_id (fs : DelFS) (itemIds : List String) :
    (deleteMultiple fs itemIds).length = itemIds.length ∧
    ∀ (i : Nat) (h : i < itemIds.length)
      (h2 : i < (deleteMultiple fs itemIds).length),
      (deleteMultiple fs itemIds).get ⟨i, h2⟩ =
        deleteItem fs (itemIds.get ⟨i, h⟩) ∧
      ((deleteMultiple fs itemIds).get ⟨i, h2⟩).id = itemIds.get ⟨i, h⟩ := by
  constructor
  · simp [deleteMultiple]
  · intro i h h2
    constructor
    · simp [deleteMultiple, List.get_map]
    · simp [deleteMultiple, List.get_map, deleteItem_id]

/-- Witness for C10 at a concrete id list: the first result is the
deletion of the first id and carries its id. -/
theorem deleteMultiple_one_per_id_witness :
    (deleteMultiple fsAllOk ["a", "b"]).get ⟨0, by decide⟩ =
      deleteItem fsAllOk (["a", "b"].get ⟨0, by decide⟩) ∧
    ((deleteMultiple fsAllOk ["a", "b"]).get ⟨0, by decide⟩).id =
      ["a", "b"].get ⟨0, by decide⟩ :=
  (deleteMultiple_one_per_id fsAllOk ["a", "b"]).2 0 (by decide) (by decide)

theorem foldlKeys_nodup (fs : List AIJunkFile) :
    ∀ acc : List String, acc.Nodup →
      (fs.foldl (fun ks f => if ks.contains f.path then ks
        else ks ++ [f.path]) acc).Nodup := by
  induction fs with
  | nil => intro acc h; simpa using h
  | cons f rest ih =>
    intro acc hacc
    simp only [List.foldl_cons]
    by_cases hc : acc.contains f.path = true
    · rw [if_pos hc]
      exact ih acc hacc
    · rw [if_neg hc]
      apply ih
      have hnm : f.path ∉ acc := fun hm => hc (List.elem_iff.mpr hm)
      simp [List.nodup_append, hacc, hnm]

theorem foldlKeys_covered (fs : List AIJunkFile) :
    ∀ (acc : List String) (p : String),
      p ∈ fs.foldl (fun ks f => if ks.contains f.path then ks
        else ks ++ [f.path]) acc →
      p ∈ acc ∨ ∃ f ∈ fs, f.path = p := by
  induction fs with
  | nil => intro acc p h; exact Or.inl (by simpa using h)
  | cons f rest ih =>
    intro acc p h
    simp only [List.foldl_cons] at h
    by_cases hc : acc.contains f.path = true
    · rw [if_pos hc] at h
      rcases ih acc p h with h1 | ⟨g, hg, hgp⟩
      · exact Or.inl h1
      · exact Or.inr ⟨g, List.mem_cons_of_mem _ hg, hgp⟩
    · rw [if_neg hc] at h
      rcases ih (acc ++ [f.path]) p h with h1 | ⟨g, hg, hgp⟩
      · rcases List.mem_append.mp h1 with h2 | h2
        · exact Or.inl h2
        · exact Or.inr ⟨f, List.mem_cons_self _ _, (List.mem_singleton.mp h2).symm⟩
      · exact Or.inr ⟨g, List.mem_cons_of_mem _ hg, hgp⟩

theorem filtered_getLast (files : List AIJunkFile) (p : String)
    (hex : ∃ f ∈ files, f.path = p) :
    ∃ g, (files.filter (fun f => f.path == p)).getLast? = some g ∧ g.path = p := by
  obtain ⟨f, hf, hp⟩ := hex
  have hne : files.filter (fun f => f.path == p) ≠ [] :=
    List.ne_nil_of_mem (List.mem_filter.mpr ⟨hf, by simp [hp]⟩)
  cases hgl : (files.filter (fun f => f.path == p)).getLast? with
  | none => exact absurd (List.getLast?_eq_none_iff.mp hgl) hne
  | some g =>
    refine ⟨g, rfl, ?_⟩
    have hg := (List.mem_filter.mp (List.mem_of_mem_getLast? hgl)).2
    simpa using hg

theorem map_path_filterMap_lastOf (files : List AIJunkFile) :
    ∀ l : List String, (∀ p ∈ l, ∃ f ∈ files, f.path = p) →
      ((l.filterMap (fun p =>
        (files.filter (fun f => f.path == p)).getLast?)).map
          (fun f => f.path)) = l := by
  intro l
  induction l with
  | nil => intro hl; simp
  | cons p rest ih =>
    intro hl
    obtain ⟨g, hg, hgp⟩ := filtered_getLast files p (hl p (List.mem_cons_self _ _))
    rw [List.filterMap_cons_some
        (f := fun q => (List.filter (fun f => f.path == q) files).getLast?) hg,
      List.map_cons, hgp,
      ih (fun q hq => hl q (List.mem_cons_of_mem _ hq))]

theorem dedupByPath_paths_nodup (files : List AIJunkFile) :
    ((dedupByPath files).map (fun f => f.path)).Nodup := by
  simp only [dedupByPath]
  rw [map_path_filterMap_lastOf]
  · exact foldlKeys_nodup files [] List.nodup_nil
  · intro p hp
    rcases foldlKeys_covered files [] p hp with h | h
    · simp at h
    · exact h

theorem bySizeDesc_trans : ∀ a b c : AIJunkFile, bySizeDesc a b = true →
    bySizeDesc b c = true → bySizeDesc a c = true := by
  intro a b c
  simp only [bySizeDesc, decide_eq_true_eq]
  omega

theorem bySizeDesc_total : ∀ a b : AIJunkFile,
    (bySizeDesc a b || bySizeDesc b a) = true := by
  intro a b
  simp only [bySizeDesc, Bool.or_eq_true, decide_eq_true_eq]
  omega

theorem sorted_by_size_mergeSort (u : List AIJunkFile) :
    List.Sorted (fun a b : AIJunkFile => b.size ≤ a.size)
      (u.mergeSort bySizeDesc) := by
  have h := List.sorted_mergeSort bySizeDesc_trans bySizeDesc_total u
  exact h.imp (fun hab => by simpa [bySizeDesc] using hab)

theorem mergeSort_paths_nodup (u : List AIJunkFile)
    (h : (u.map (fun f => f.path)).Nodup) :
    ((u.mergeSort bySizeDesc).map (fun f => f.path)).Nodup :=
  (((List.mergeSort_perm u bySizeDesc).map (fun f => f.path)).symm).nodup h

theorem foldl_add_size (l : List AIJunkFile) :
    ∀ n : Nat, l.foldl (fun sum f => sum + f.size) n =
      n + (l.map (fun f => f.size)).sum := by
  induction l with
  | nil => intro n; simp
  | cons f rest ih =>
    intro n
    simp only [List.foldl_cons, List.map_cons, List.sum_cons]
    rw [ih]
    omega

/-- C9: every `scanAll` result lists each path at most once, is
sorted by size in descending order, totals exactly the sizes of the
returned files, and formats that total with `formatBytes`. -/
theorem scanAll_result_invariants (env : ScanEnv) :
    ((scanAll env).files.map (fun f => f.path)).Nodup ∧
    List.Sorted (fun a b : AIJunkFile => b.size ≤ a.size) (scanAll env).files ∧
    (scanAll env).totalSize = ((scanAll env).files.map (fun f => f.size)).sum ∧
    (scanAll env).totalSizeFormatted = formatBytes (scanAll env).totalSize := by
  refine ⟨?_, ?_, ?_, rfl⟩
  · exact mergeSort_paths_nodup _ (dedupByPath_paths_nodup _)
  · exact sorted_by_size_mergeSort _
  · calc (scanAll env).totalSize
        = (scanAll env).files.foldl (fun sum f => sum + f.size) 0 := rfl
      _ = 0 + ((scanAll env).files.map (fun f => f.size)).sum :=
        foldl_add_size _ 0
      _ = ((scanAll env).files.map (fun f => f.size)).sum := Nat.zero_add _
